import Mathlib

/-!
Verification of the plagiarism-similarity core of the repository
(src/server/src/utils/plagiarism.ts), shallowly embedded in Lean 4.

Modelling conventions:
* A JavaScript string is modelled as a list of characters (abbreviation
  Str below); JavaScript truthiness of an optional string (undefined,
  null and the empty string are falsy) is modelled by strTruthy.
* JavaScript numbers are modelled by the rationals.  The only
  non-rational operation the core performs is Math.sqrt inside
  cosineSimilarity; it is modelled by the integer square root Nat.sqrt
  applied to the (integral) squared magnitudes.  This model agrees
  exactly with IEEE doubles whenever the magnitudes are perfect squares,
  which is the case in every concrete instance evaluated below.
* A JavaScript Map with string keys is modelled as an association list
  in insertion order (Map.set appends new keys at the end, as the
  source relies on when iterating entries()).
* Code that can throw is modelled with Except.  Inside the core the
  only throwing operation is the mongoose ObjectId constructor used by
  toObjectId; mongoose/bson is an external dependency, its documented
  constructor contract (a 24-character hex string or a 12-character
  string is accepted, anything else throws) is modelled by
  isValidObjectIdStr.
* SHA-256 comes from the node crypto library, also external to the
  repository.  Modelled from the spec: a deterministic fixed-length
  digest with the property that equal normalized strings give equal
  hashes and (for practical purposes) unequal strings give unequal
  hashes; it is modelled by an injective placeholder digest.
-/

/-- Characters of a JavaScript string. -/
abbrev Str := List Char

/-- Convenience conversion from a Lean string literal to its characters. -/
def chars (s : String) : Str := s.data

/-- JavaScript truthiness of an optional string: undefined and the empty
string are falsy. -/
def strTruthy : Option Str → Bool
  | none => false
  | some s => !s.isEmpty

/-- Severity buckets of a similarity report
(plagiarism.ts, SimilarityReport.category). -/
inductive Category where
  | none
  | low
  | medium
  | high
deriving DecidableEq

/-- Fixed thresholds of plagiarism.ts (CATEGORY_THRESHOLDS). -/
def CATEGORY_THRESHOLDS : Category → ℚ
  | .none => 0
  | .low => 0.4
  | .medium => 0.6
  | .high => 0.8

/-- Embedding of bucketScore (plagiarism.ts lines 35-40). -/
def bucketScore (score : ℚ) : Category :=
  if score ≥ CATEGORY_THRESHOLDS .high then .high
  else if score ≥ CATEGORY_THRESHOLDS .medium then .medium
  else if score ≥ CATEGORY_THRESHOLDS .low then .low
  else .none

/-- Whitespace class of the JavaScript regular expressions used by
normalizeText (the ASCII part of the backslash-s class, which is all the
concrete inputs below use). -/
def isSpaceChar (c : Char) : Bool :=
  c = ' ' || c = '\t' || c = '\n' || c = '\r'

/-- Character class a-z0-9 of the normalizeText regular expression. -/
def isAlnumLower (c : Char) : Bool :=
  ('a' ≤ c && c ≤ 'z') || ('0' ≤ c && c ≤ '9')

/-- Complement class of the first normalizeText replacement: characters
outside a-z0-9 and whitespace. -/
def isStripChar (c : Char) : Bool :=
  !(isAlnumLower c || isSpaceChar c)

/-- Replace every maximal run of characters satisfying p by the single
character r.  This is the effect of a global JavaScript replace of the
pattern (class)+ by a one-character string. -/
def collapseRuns (p : Char → Bool) (r : Char) : Str → Str
  | [] => []
  | [c] => if p c then [r] else [c]
  | c :: d :: rest =>
    if p c then
      if p d then collapseRuns p r (d :: rest)
      else r :: collapseRuns p r (d :: rest)
    else c :: collapseRuns p r (d :: rest)

/-- JavaScript String.prototype.trim: drop whitespace from both ends. -/
def trimStr (s : Str) : Str :=
  ((s.dropWhile isSpaceChar).reverse.dropWhile isSpaceChar).reverse

/-- Embedding of normalizeText (plagiarism.ts lines 42-52): lowercase,
replace runs outside a-z0-9 and whitespace with a space, collapse
whitespace runs to one space, trim; absent (or falsy) input and an empty
result both give an absent output. -/
def normalizeText (input : Option Str) : Option Str :=
  match input with
  | none => none
  | some s =>
    if s.isEmpty then none
    else
      let normalized :=
        trimStr (collapseRuns isSpaceChar ' '
          (collapseRuns isStripChar ' ' (s.map Char.toLower)))
      if 0 < normalized.length then some normalized else none

/-- Term-frequency vector: token to occurrence count, in insertion
order (models the JavaScript Map of buildVector). -/
abbrev TermVector := List (Str × ℕ)

/-- JavaScript String.prototype.split with a one-character separator:
consecutive separators produce empty fields, and the empty string splits
to one empty field. -/
def splitChar (sep : Char) : Str → List Str
  | [] => [[]]
  | c :: cs =>
    if c = sep then [] :: splitChar sep cs
    else
      match splitChar sep cs with
      | t :: ts => (c :: t) :: ts
      | [] => [[c]]

/-- Map.set-based counting step of buildVector: increment the count of
an existing token in place, or append a new token with count 1. -/
def bump : TermVector → Str → TermVector
  | [], token => [(token, 1)]
  | (u, w) :: rest, token =>
    if u = token then (u, w + 1) :: rest else (u, w) :: bump rest token

/-- Embedding of buildVector (plagiarism.ts lines 54-66): split the
normalized text on single spaces and count the non-empty tokens. -/
def buildVector (normalized : Option Str) : TermVector :=
  match normalized with
  | none => []
  | some s =>
    if s.isEmpty then []
    else (splitChar ' ' s).foldl
      (fun vector token => if token.isEmpty then vector else bump vector token) []

/-- Map.get of the JavaScript term-vector map. -/
def lookupW : TermVector → Str → Option ℕ
  | [], _ => none
  | (u, w) :: rest, token => if u = token then some w else lookupW rest token

/-- Squared Euclidean magnitude accumulation of cosineSimilarity
(sum over the stored values of value * value). -/
def vmag : TermVector → ℕ
  | [] => 0
  | (_, value) :: rest => value * value + vmag rest

/-- Dot-product loop of cosineSimilarity: iterate the first (smaller)
vector and look each token up in the second (larger) one; the JavaScript
truthiness test on the looked-up weight skips zero weights. -/
def dotp : TermVector → TermVector → ℕ
  | [], _ => 0
  | (token, weight) :: rest, larger =>
    (match lookupW larger token with
     | some otherWeight => if otherWeight ≠ 0 then weight * otherWeight else 0
     | none => 0) + dotp rest larger

/-- Embedding of cosineSimilarity (plagiarism.ts lines 68-97).
Math.sqrt of the integral squared magnitudes is modelled by Nat.sqrt
(see the module comment). -/
def cosineSimilarity (a b : TermVector) : ℚ :=
  if a.length = 0 ∨ b.length = 0 then 0
  else
    let magnitudeA := vmag a
    let magnitudeB := vmag b
    let denom : ℚ := (Nat.sqrt magnitudeA : ℚ) * (Nat.sqrt magnitudeB : ℚ)
    if denom = 0 then 0
    else
      let smaller := if a.length < b.length then a else b
      let larger := if a.length < b.length then b else a
      min 1 (max 0 ((dotp smaller larger : ℚ) / denom))

/-- Embedding of createContentHash (plagiarism.ts lines 99-102).
SHA-256 lives in the external node crypto library.  Modelled from the
spec: a deterministic digest with equal inputs giving equal outputs and
distinct inputs giving distinct outputs; realized by an injective
placeholder (the identity on the normalized characters). -/
def createContentHash (normalized : Option Str) : Option Str :=
  match normalized with
  | none => none
  | some s => if s.isEmpty then none else some s

/-- Number(x.toFixed(4)) for a non-negative rational: round to four
decimal places, halves away from zero. -/
def round4 (q : ℚ) : ℚ := (round (q * 10000) : ℤ) / 10000

/-- Mongo object identifier (opaque; only its identity matters to the
core). -/
structure ObjectId where
  hex : Str
deriving DecidableEq

/-- Error raised by the external mongoose ObjectId constructor on an
invalid input string. -/
inductive BsonError where
  | invalidObjectId
deriving DecidableEq

/-- Documented contract of the mongoose/bson ObjectId constructor on
strings: a 24-character hexadecimal string or a 12-character string is
accepted, anything else throws (external dependency, modelled). -/
def isHexDigitChar (c : Char) : Bool :=
  ('0' ≤ c && c ≤ '9') || ('a' ≤ c && c ≤ 'f') || ('A' ≤ c && c ≤ 'F')

/-- Validity of a string argument to the ObjectId constructor. -/
def isValidObjectIdStr (s : Str) : Bool :=
  (s.length == 24 && s.all isHexDigitChar) || s.length == 12

/-- Peer identifier as stored on an existing submission:
mongoose.Types.ObjectId or string. -/
inductive MongoIdRef where
  | oid (o : ObjectId)
  | str (s : Str)
deriving DecidableEq

/-- Embedding of toObjectId (plagiarism.ts lines 147-149); the string
branch calls the throwing mongoose constructor. -/
def toObjectId : MongoIdRef → Except BsonError ObjectId
  | .oid o => .ok o
  | .str s => if isValidObjectIdStr s then .ok ⟨s⟩ else .error .invalidObjectId

/-- Embedding of the MatchResult interface (plagiarism.ts lines 6-9). -/
structure MatchResult where
  submissionId : ObjectId
  score : ℚ
deriving DecidableEq

/-- Embedding of the SimilarityReport interface (plagiarism.ts lines
11-18); extractedText is never set by buildSimilarityReport and is
omitted.  The source field matches is a Lean keyword and is rendered
matchList. -/
structure SimilarityReport where
  score : ℚ
  category : Category
  matchList : List MatchResult
  contentHash : Option Str
  normalizedText : Option Str
deriving DecidableEq

/-- Embedding of the ExistingSubmission interface (plagiarism.ts lines
20-24).  The source field is spelled with a leading underscore, which is
not a Lean identifier; it is rendered idRef. -/
structure ExistingSubmission where
  idRef : MongoIdRef
  normalizedText : Option Str
  contentHash : Option Str

/-- Hash-shortcut condition of the peer loop (plagiarism.ts line 207):
both hashes truthy and strictly equal. -/
def hashMatch (contentHash peerHash : Option Str) : Bool :=
  strTruthy contentHash && strTruthy peerHash && decide (contentHash = peerHash)

/-- Per-peer score of the buildSimilarityReport loop (plagiarism.ts
lines 204-212): 1 on a hash match, else cosine similarity against the
peer vector when the peer has (truthy) normalized text, else 0. -/
def peerScore (vector : TermVector) (contentHash : Option Str)
    (peer : ExistingSubmission) : ℚ :=
  if hashMatch contentHash peer.contentHash then 1
  else if strTruthy peer.normalizedText then
    cosineSimilarity vector (buildVector peer.normalizedText)
  else 0

/-- Match-collection loop of buildSimilarityReport (plagiarism.ts lines
204-220): for each peer in order, if the score is positive, convert the
peer identifier (which can throw) and record the rounded score. -/
def collectMatches (vector : TermVector) (contentHash : Option Str) :
    List ExistingSubmission → Except BsonError (List MatchResult)
  | [] => .ok []
  | peer :: rest =>
    let score := peerScore vector contentHash peer
    if 0 < score then
      match toObjectId peer.idRef with
      | .ok oid =>
        match collectMatches vector contentHash rest with
        | .ok ms => .ok ({ submissionId := oid, score := round4 score } :: ms)
        | .error e => .error e
      | .error e => .error e
    else collectMatches vector contentHash rest

/-- Descending-by-score comparator of the final sort (plagiarism.ts
line 222). -/
def matchLe (a b : MatchResult) : Prop := b.score ≤ a.score

instance : DecidableRel matchLe :=
  fun a b => inferInstanceAs (Decidable (b.score ≤ a.score))

instance : IsTotal MatchResult matchLe :=
  ⟨fun a b => le_total b.score a.score⟩

instance : IsTrans MatchResult matchLe :=
  ⟨fun _ _ _ h1 h2 => le_trans h2 h1⟩

/-- Embedding of buildSimilarityReport (plagiarism.ts lines 186-232). -/
def buildSimilarityReport (normalizedText contentHash : Option Str)
    (peers : List ExistingSubmission) : Except BsonError SimilarityReport :=
  if !strTruthy normalizedText then
    .ok { score := 0, category := .none, matchList := [],
          contentHash := contentHash, normalizedText := normalizedText }
  else
    let vector := buildVector normalizedText
    match collectMatches vector contentHash peers with
    | .error e => .error e
    | .ok ms =>
      let sorted := List.insertionSort matchLe ms
      let topScore := ((sorted.head?).map MatchResult.score).getD 0
      .ok { score := topScore, category := bucketScore topScore,
            matchList := sorted, contentHash := contentHash,
            normalizedText := normalizedText }

/-- Region lemma: scores of at least 0.8 bucket to high. -/
lemma bucketScore_eq_high {s : ℚ} (h : (0.8 : ℚ) ≤ s) :
    bucketScore s = .high := by
  simp only [bucketScore, CATEGORY_THRESHOLDS]
  rw [if_pos h]

/-- Region lemma: scores in the 0.6 to 0.8 band bucket to medium. -/
lemma bucketScore_eq_medium {s : ℚ} (h1 : ¬ (0.8 : ℚ) ≤ s)
    (h2 : (0.6 : ℚ) ≤ s) : bucketScore s = .medium := by
  simp only [bucketScore, CATEGORY_THRESHOLDS]
  rw [if_neg h1, if_pos h2]

/-- Region lemma: scores in the 0.4 to 0.6 band bucket to low. -/
lemma bucketScore_eq_low {s : ℚ} (h1 : ¬ (0.8 : ℚ) ≤ s)
    (h2 : ¬ (0.6 : ℚ) ≤ s) (h3 : (0.4 : ℚ) ≤ s) : bucketScore s = .low := by
  simp only [bucketScore, CATEGORY_THRESHOLDS]
  rw [if_neg h1, if_neg h2, if_pos h3]

/-- Region lemma: scores below 0.4 bucket to none. -/
lemma bucketScore_eq_none {s : ℚ} (h : s < (0.4 : ℚ)) :
    bucketScore s = .none := by
  simp only [bucketScore, CATEGORY_THRESHOLDS]
  rw [if_neg (not_le.mpr (by linarith)), if_neg (not_le.mpr (by linarith)),
    if_neg (not_le.mpr h)]

/-- Full case description of bucketScore as an auxiliary fact. -/
lemma bucketScore_cases (s : ℚ) :
    (bucketScore s = .high ↔ (0.8 : ℚ) ≤ s) ∧
    (bucketScore s = .medium ↔ (0.6 : ℚ) ≤ s ∧ s < 0.8) ∧
    (bucketScore s = .low ↔ (0.4 : ℚ) ≤ s ∧ s < 0.6) ∧
    (bucketScore s = .none ↔ s < 0.4) := by
  rcases le_or_lt (0.8 : ℚ) s with h1 | h1
  · rw [bucketScore_eq_high h1]
    exact ⟨⟨fun _ => h1, fun _ => rfl⟩,
      ⟨fun hc => absurd hc (by decide), fun hc => absurd hc.2 (not_lt.mpr h1)⟩,
      ⟨fun hc => absurd hc (by decide),
        fun hc => absurd hc.2 (not_lt.mpr (by linarith))⟩,
      ⟨fun hc => absurd hc (by decide),
        fun hc => absurd hc (not_lt.mpr (by linarith))⟩⟩
  · rcases le_or_lt (0.6 : ℚ) s with h2 | h2
    · rw [bucketScore_eq_medium (not_le.mpr h1) h2]
      exact ⟨⟨fun hc => absurd hc (by decide), fun hc => absurd hc (not_le.mpr h1)⟩,
        ⟨fun _ => ⟨h2, h1⟩, fun _ => rfl⟩,
        ⟨fun hc => absurd hc (by decide), fun hc => absurd hc.2 (not_lt.mpr h2)⟩,
        ⟨fun hc => absurd hc (by decide),
          fun hc => absurd hc (not_lt.mpr (by linarith))⟩⟩
    · rcases le_or_lt (0.4 : ℚ) s with h3 | h3
      · rw [bucketScore_eq_low (not_le.mpr h1) (not_le.mpr h2) h3]
        exact ⟨⟨fun hc => absurd hc (by decide), fun hc => absurd hc (not_le.mpr h1)⟩,
          ⟨fun hc => absurd hc (by decide), fun hc => absurd hc.1 (not_le.mpr h2)⟩,
          ⟨fun _ => ⟨h3, h2⟩, fun _ => rfl⟩,
          ⟨fun hc => absurd hc (by decide), fun hc => absurd hc (not_lt.mpr h3)⟩⟩
      · rw [bucketScore_eq_none h3]
        exact ⟨⟨fun hc => absurd hc (by decide),
            fun hc => absurd hc (not_le.mpr (by linarith))⟩,
          ⟨fun hc => absurd hc (by decide),
            fun hc => absurd hc.1 (not_le.mpr (by linarith))⟩,
          ⟨fun hc => absurd hc (by decide), fun hc => absurd hc.1 (not_le.mpr h3)⟩,
          ⟨fun _ => h3, fun _ => rfl⟩⟩

/-- C1: bucketScore maps a score to high iff it is at least 0.8, to
medium iff it is in the interval from 0.6 inclusive to 0.8 exclusive, to
low iff it is in the interval from 0.4 inclusive to 0.6 exclusive, and
to none iff it is below 0.4; in particular 0.79 is medium, 0.8 is high,
0.59 is low, 0.6 is medium, 0.39 is none and 0.4 is low. -/
theorem bucketScore_spec :
    (∀ s : ℚ,
      (bucketScore s = .high ↔ (0.8 : ℚ) ≤ s) ∧
      (bucketScore s = .medium ↔ (0.6 : ℚ) ≤ s ∧ s < 0.8) ∧
      (bucketScore s = .low ↔ (0.4 : ℚ) ≤ s ∧ s < 0.6) ∧
      (bucketScore s = .none ↔ s < 0.4)) ∧
    bucketScore 0.79 = .medium ∧ bucketScore 0.8 = .high ∧
    bucketScore 0.59 = .low ∧ bucketScore 0.6 = .medium ∧
    bucketScore 0.39 = .none ∧ bucketScore 0.4 = .low := by
  refine ⟨bucketScore_cases, ?_, ?_, ?_, ?_, ?_, ?_⟩
  · exact ((bucketScore_cases 0.79).2.1).mpr (by norm_num)
  · exact ((bucketScore_cases 0.8).1).mpr (by norm_num)
  · exact ((bucketScore_cases 0.59).2.2.1).mpr (by norm_num)
  · exact ((bucketScore_cases 0.6).2.1).mpr (by norm_num)
  · exact ((bucketScore_cases 0.39).2.2.2).mpr (by norm_num)
  · exact ((bucketScore_cases 0.4).2.2.1).mpr (by norm_num)

/-- Severity order of the four buckets, used to state monotonicity. -/
def catRank : Category → ℕ
  | .none => 0
  | .low => 1
  | .medium => 2
  | .high => 3

/-- Helper: high is the top of the severity order. -/
lemma catRank_le_high (c : Category) : catRank c ≤ catRank .high := by
  cases c <;> simp [catRank]

/-- C9: bucketScore is monotone with respect to the severity order none,
low, medium, high: raising a score never lowers the bucket. -/
theorem bucketScore_monotone (s1 s2 : ℚ) (h : s1 ≤ s2) :
    catRank (bucketScore s1) ≤ catRank (bucketScore s2) := by
  rcases le_or_lt (0.8 : ℚ) s2 with a2 | a2
  · rw [bucketScore_eq_high a2]
    exact catRank_le_high _
  · rcases le_or_lt (0.6 : ℚ) s2 with b2 | b2
    · rw [bucketScore_eq_medium (not_le.mpr a2) b2]
      rcases le_or_lt (0.6 : ℚ) s1 with b1 | b1
      · rw [bucketScore_eq_medium (not_le.mpr (by linarith)) b1]
      · rcases le_or_lt (0.4 : ℚ) s1 with c1 | c1
        · rw [bucketScore_eq_low (not_le.mpr (by linarith)) (not_le.mpr b1) c1]
          simp [catRank]
        · rw [bucketScore_eq_none c1]
          simp [catRank]
    · rcases le_or_lt (0.4 : ℚ) s2 with c2 | c2
      · rw [bucketScore_eq_low (not_le.mpr a2) (not_le.mpr b2) c2]
        rcases le_or_lt (0.4 : ℚ) s1 with c1 | c1
        · rw [bucketScore_eq_low (not_le.mpr (by linarith))
            (not_le.mpr (by linarith)) c1]
        · rw [bucketScore_eq_none c1]
          simp [catRank]
      · rw [bucketScore_eq_none c2, bucketScore_eq_none (by linarith)]

/-- Witness for C9 at the concrete pair one half and nine tenths. -/
theorem bucketScore_monotone_witness :
    (1 : ℚ)/2 ≤ 9/10 ∧
    catRank (bucketScore ((1 : ℚ)/2)) ≤ catRank (bucketScore ((9 : ℚ)/10)) :=
  ⟨by norm_num, bucketScore_monotone ((1 : ℚ)/2) ((9 : ℚ)/10) (by norm_num)⟩

/-- C4: with absent normalized text the report is the zero report with
empty matches, category none, and the hash and text arguments passed
through unchanged, for every content hash and every peer list. -/
theorem buildSimilarityReport_absent_text (ch : Option Str)
    (peers : List ExistingSubmission) :
    buildSimilarityReport none ch peers =
      .ok { score := 0, category := .none, matchList := [],
            contentHash := ch, normalizedText := none } := rfl

/-- C10: on every path that returns a report, the contentHash and
normalizedText fields of the report are exactly the arguments given. -/
theorem buildSimilarityReport_passthrough (nt ch : Option Str)
    (peers : List ExistingSubmission) (r : SimilarityReport)
    (h : buildSimilarityReport nt ch peers = .ok r) :
    r.contentHash = ch ∧ r.normalizedText = nt := by
  unfold buildSimilarityReport at h
  split at h
  · injection h with h2
    subst h2
    exact ⟨rfl, rfl⟩
  · simp only at h
    split at h
    · exact Except.noConfusion h
    · injection h with h2
      subst h2
      exact ⟨rfl, rfl⟩

/-- Witness for C10 at a concrete input: one-character text, no hash,
no peers. -/
theorem buildSimilarityReport_passthrough_witness :
    buildSimilarityReport (some (chars ("a"))) none [] =
      .ok { score := 0, category := bucketScore 0, matchList := [],
            contentHash := none, normalizedText := some (chars ("a")) } ∧
    (some (chars ("a")) : Option Str) = some (chars ("a")) ∧
    (none : Option Str) = none := by
  have h : buildSimilarityReport (some (chars ("a"))) none [] =
      .ok { score := 0, category := bucketScore 0, matchList := [],
            contentHash := none, normalizedText := some (chars ("a")) } := rfl
  have hp := buildSimilarityReport_passthrough (some (chars ("a"))) none [] _ h
  exact ⟨h, hp.2.symm ▸ rfl, hp.1.symm ▸ rfl⟩

/-- Top score as read by buildSimilarityReport from a sorted list. -/
lemma topScore_of_nil (l : List MatchResult) (he : l = []) :
    ((l.head?.map MatchResult.score).getD 0) = 0 := by
  subst he
  rfl

/-- Head of a list sorted descending by score dominates every member. -/
lemma head_ge_of_sorted (l : List MatchResult) (hs : List.Sorted matchLe l)
    (m : MatchResult) (hm : m ∈ l) :
    m.score ≤ ((l.head?.map MatchResult.score).getD 0) := by
  cases l with
  | nil => cases hm
  | cons hd tl =>
    show m.score ≤ hd.score
    rcases List.mem_cons.mp hm with rfl | hmem
    · exact le_refl _
    · exact (List.sorted_cons.mp hs).1 m hmem

/-- Top score equals the head score when a head exists. -/
lemma topScore_of_head (l : List MatchResult) (hd : MatchResult)
    (hh : l.head? = some hd) :
    ((l.head?.map MatchResult.score).getD 0) = hd.score := by
  rw [hh]
  rfl

/-- C2: every report returned by buildSimilarityReport has its matches
sorted descending by score, its top-level score equal to the maximum
match score (the first element's score, or 0 when there are no matches),
and its category equal to bucketScore of that top-level score. -/
theorem buildSimilarityReport_invariants (nt ch : Option Str)
    (peers : List ExistingSubmission) (r : SimilarityReport)
    (h : buildSimilarityReport nt ch peers = .ok r) :
    r.matchList.Sorted matchLe ∧
    (r.matchList = [] → r.score = 0) ∧
    (∀ m ∈ r.matchList, m.score ≤ r.score) ∧
    (∀ hd, r.matchList.head? = some hd → r.score = hd.score) ∧
    r.category = bucketScore r.score := by
  unfold buildSimilarityReport at h
  split at h
  · injection h with h2
    subst h2
    refine ⟨List.sorted_nil, fun _ => rfl, ?_, ?_, ?_⟩
    · intro m hm
      cases hm
    · intro hd hh
      cases hh
    · exact (bucketScore_eq_none (by norm_num)).symm
  · simp only at h
    split at h
    · exact Except.noConfusion h
    · injection h with h2
      subst h2
      refine ⟨List.sorted_insertionSort matchLe _, ?_, ?_, ?_, rfl⟩
      · exact fun he => topScore_of_nil _ he
      · exact fun m hm =>
          head_ge_of_sorted _ (List.sorted_insertionSort matchLe _) m hm
      · exact fun hd hh => topScore_of_head _ hd hh

/-- Evaluation lemma: collectMatches on the empty peer list. -/
lemma collectMatches_nil (v : TermVector) (ch : Option Str) :
    collectMatches v ch [] = .ok [] := rfl

/-- Evaluation lemma: collectMatches step for a peer with positive score
and convertible identifier. -/
lemma collectMatches_cons_pos (v : TermVector) (ch : Option Str)
    (peer : ExistingSubmission) (rest : List ExistingSubmission) (s : ℚ)
    (oid : ObjectId) (ms : List MatchResult)
    (hps : peerScore v ch peer = s) (hpos : 0 < s)
    (hoid : toObjectId peer.idRef = .ok oid)
    (hrest : collectMatches v ch rest = .ok ms) :
    collectMatches v ch (peer :: rest) =
      .ok ({ submissionId := oid, score := round4 s } :: ms) := by
  unfold collectMatches
  simp only [hps, hoid, hrest]
  rw [if_pos hpos]

/-- Evaluation lemma: collectMatches step for a peer with non-positive
score. -/
lemma collectMatches_cons_zero (v : TermVector) (ch : Option Str)
    (peer : ExistingSubmission) (rest : List ExistingSubmission) (s : ℚ)
    (hps : peerScore v ch peer = s) (hnpos : ¬ 0 < s) :
    collectMatches v ch (peer :: rest) = collectMatches v ch rest := by
  simp only [collectMatches, hps]
  rw [if_neg hnpos]

/-- Evaluation lemma: buildSimilarityReport from a computed match
list. -/
lemma buildSimilarityReport_eval (nt ch : Option Str)
    (peers : List ExistingSubmission) (ms : List MatchResult)
    (ht : strTruthy nt = true)
    (hcm : collectMatches (buildVector nt) ch peers = .ok ms) :
    buildSimilarityReport nt ch peers =
      .ok { score := (((List.insertionSort matchLe ms).head?).map
              MatchResult.score).getD 0,
            category := bucketScore ((((List.insertionSort matchLe ms).head?).map
              MatchResult.score).getD 0),
            matchList := List.insertionSort matchLe ms,
            contentHash := ch, normalizedText := nt } := by
  unfold buildSimilarityReport
  rw [if_neg (by simp [ht])]
  simp only []
  rw [hcm]

/-- Rounding one to four decimal places gives one. -/
lemma round4_one : round4 1 = 1 := by
  unfold round4
  have h : round ((1 : ℚ) * 10000) = 10000 := by
    rw [round_eq]
    norm_num [Int.floor_eq_iff]
  rw [h]
  norm_num

/-- Concrete report used by the C2 witness: a one-word submission with
no peers. -/
def invariantsWitnessReport : SimilarityReport :=
  { score := 0, category := bucketScore 0, matchList := [],
    contentHash := none, normalizedText := some (chars ("a")) }

/-- Witness for C2: the invariants hold on the concrete report for a
one-word submission with no peers. -/
theorem buildSimilarityReport_invariants_witness :
    buildSimilarityReport (some (chars ("a"))) none [] =
      .ok invariantsWitnessReport ∧
    (invariantsWitnessReport.matchList.Sorted matchLe ∧
      (invariantsWitnessReport.matchList = [] →
        invariantsWitnessReport.score = 0) ∧
      (∀ m ∈ invariantsWitnessReport.matchList,
        m.score ≤ invariantsWitnessReport.score) ∧
      (∀ hd, invariantsWitnessReport.matchList.head? = some hd →
        invariantsWitnessReport.score = hd.score) ∧
      invariantsWitnessReport.category =
        bucketScore invariantsWitnessReport.score) :=
  ⟨rfl, buildSimilarityReport_invariants (some (chars ("a"))) none [] _ rfl⟩

/-- Concrete peer identifier used in the end-to-end scenarios (a valid
24-character hexadecimal ObjectId). -/
def oid1 : ObjectId := ⟨chars ("507f1f77bcf86cd799439011")⟩

/-- Normalized text of the scenario submission The quick brown fox. -/
def scenario1Text : Option Str :=
  normalizeText (some (chars ("The quick brown fox")))

/-- Content hash of the scenario submission. -/
def scenario1Hash : Option Str := createContentHash scenario1Text

/-- Scenario peer holding the identical normalized text and hash. -/
def scenario1Peer : ExistingSubmission :=
  { idRef := .oid oid1, normalizedText := scenario1Text,
    contentHash := scenario1Hash }

/-- C3: when both content hashes are present and equal the peer is
scored 1 regardless of the submission vector (no vector computation is
involved), and the end-to-end scenario of a submission against a single
peer with identical normalized text yields a report with score 1,
category high and exactly one match of score 1. -/
theorem hashShortcut_spec :
    (∀ (vector : TermVector) (ch : Option Str) (peer : ExistingSubmission),
      hashMatch ch peer.contentHash = true → peerScore vector ch peer = 1) ∧
    buildSimilarityReport scenario1Text scenario1Hash [scenario1Peer] =
      .ok { score := 1, category := .high,
            matchList := [{ submissionId := oid1, score := 1 }],
            contentHash := scenario1Hash, normalizedText := scenario1Text } := by
  have hpart1 : ∀ (vector : TermVector) (ch : Option Str)
      (peer : ExistingSubmission),
      hashMatch ch peer.contentHash = true → peerScore vector ch peer = 1 := by
    intro v ch peer h
    simp [peerScore, h]
  refine ⟨hpart1, ?_⟩
  have hm : hashMatch scenario1Hash scenario1Peer.contentHash = true := by decide
  have hps : peerScore (buildVector scenario1Text) scenario1Hash scenario1Peer =
      1 := hpart1 _ _ _ hm
  have hcm : collectMatches (buildVector scenario1Text) scenario1Hash
      [scenario1Peer] = .ok [{ submissionId := oid1, score := round4 1 }] :=
    collectMatches_cons_pos _ _ _ _ 1 oid1 [] hps (by norm_num) rfl
      (collectMatches_nil _ _)
  rw [round4_one] at hcm
  have ht : strTruthy scenario1Text = true := by decide
  rw [buildSimilarityReport_eval _ _ _ _ ht hcm]
  rw [show (((List.insertionSort matchLe
      [{ submissionId := oid1, score := (1 : ℚ) }]).head?).map
        MatchResult.score).getD 0 = (1 : ℚ) from rfl]
  rw [bucketScore_eq_high (by norm_num)]
  rfl

/-- Witness for C3 at a concrete two-character hash and an arbitrary
vector. -/
theorem hashShortcut_witness :
    hashMatch (some (chars ("ab")))
      (ExistingSubmission.mk (.oid oid1) none (some (chars ("ab")))).contentHash =
        true ∧
    peerScore [] (some (chars ("ab")))
      (ExistingSubmission.mk (.oid oid1) none (some (chars ("ab")))) = 1 :=
  ⟨by decide, hashShortcut_spec.1 [] (some (chars ("ab"))) _ (by decide)⟩

/-- Key invariant of a JavaScript Map rendered as an association list:
the keys are pairwise distinct. -/
def nodupKeys (v : TermVector) : Prop := (v.map Prod.fst).Nodup

instance : DecidablePred nodupKeys :=
  fun v => inferInstanceAs (Decidable (v.map Prod.fst).Nodup)

/-- Defaulted lookup in a term vector; a missing token counts as weight
zero (which the dot-product loop skips). -/
def lookD (l : TermVector) (t : Str) : ℕ := (lookupW l t).getD 0

/-- Lookup of a token absent from the keys fails. -/
lemma lookupW_eq_none {s : TermVector} {t : Str}
    (h : t ∉ s.map Prod.fst) : lookupW s t = none := by
  induction s with
  | nil => rfl
  | cons e rest ih =>
    obtain ⟨u, w⟩ := e
    have hne : u ≠ t := by
      intro hut
      exact h (by simp [hut])
    simp only [lookupW, if_neg hne]
    exact ih (fun hm => h (by simp [hm]))

/-- Defaulted lookup of an absent token is zero. -/
lemma lookD_eq_zero {l : TermVector} {t : Str}
    (h : t ∉ l.map Prod.fst) : lookD l t = 0 := by
  rw [lookD, lookupW_eq_none h]
  rfl

/-- Defaulted lookup at the head key. -/
lemma lookD_cons_self (t : Str) (w : ℕ) (l : TermVector) :
    lookD ((t, w) :: l) t = w := by
  simp [lookD, lookupW]

/-- Defaulted lookup skips a head with a different key. -/
lemma lookD_cons_ne {u t : Str} (h : u ≠ t) (w : ℕ) (l : TermVector) :
    lookD ((u, w) :: l) t = lookD l t := by
  simp [lookD, lookupW, h]

/-- Unfolding of the dot-product loop in terms of defaulted lookups:
the truthiness test on the looked-up weight is equivalent to multiplying
by the defaulted weight. -/
lemma dotp_cons (t : Str) (w : ℕ) (s l : TermVector) :
    dotp ((t, w) :: s) l = w * lookD l t + dotp s l := by
  simp only [dotp, lookD]
  cases h : lookupW l t with
  | none => simp
  | some w2 =>
    by_cases hw : w2 = 0
    · simp [hw]
    · simp [hw]

/-- Dot product against the empty vector is zero. -/
lemma dotp_nil_right (s : TermVector) : dotp s [] = 0 := by
  induction s with
  | nil => rfl
  | cons e rest ih =>
    obtain ⟨t, w⟩ := e
    rw [dotp_cons, ih]
    simp [lookD, lookupW]

/-- Prepending an entry whose key does not occur in the iterated vector
does not change the dot product. -/
lemma dotp_skip {b : TermVector} {t : Str} (w : ℕ) {a : TermVector}
    (h : t ∉ b.map Prod.fst) : dotp b ((t, w) :: a) = dotp b a := by
  induction b with
  | nil => rfl
  | cons e rest ih =>
    obtain ⟨u, v⟩ := e
    have hne : t ≠ u := by
      intro hut
      exact h (by simp [hut])
    rw [dotp_cons, dotp_cons, lookD_cons_ne hne, ih (fun hm => h (by simp [hm]))]

/-- Dot product against a vector extended by a fresh entry. -/
lemma dotp_cons_right {b : TermVector} (hb : nodupKeys b) {t : Str}
    {w : ℕ} {a : TermVector} (ha : t ∉ a.map Prod.fst) :
    dotp b ((t, w) :: a) = w * lookD b t + dotp b a := by
  induction b with
  | nil => simp [dotp, lookD, lookupW]
  | cons e rest ih =>
    obtain ⟨u, v⟩ := e
    have hu : u ∉ rest.map Prod.fst := by
      have := (List.nodup_cons.mp hb).1
      simpa using this
    have hrest : nodupKeys rest := (List.nodup_cons.mp hb).2
    rw [dotp_cons, dotp_cons]
    by_cases hut : u = t
    · subst hut
      rw [lookD_cons_self, lookD_cons_self, dotp_skip w hu, lookD_eq_zero ha]
      ring
    · rw [lookD_cons_ne (fun h => hut h.symm), lookD_cons_ne hut, ih hrest]
      ring

/-- Commutativity of the dot product over vectors with distinct keys. -/
lemma dotp_comm {a b : TermVector} (ha : nodupKeys a) (hb : nodupKeys b) :
    dotp a b = dotp b a := by
  induction a with
  | nil => exact (dotp_nil_right b).symm
  | cons e rest ih =>
    obtain ⟨t, w⟩ := e
    have ht : t ∉ rest.map Prod.fst := by
      have := (List.nodup_cons.mp ha).1
      simpa using this
    have hrest : nodupKeys rest := (List.nodup_cons.mp ha).2
    rw [dotp_cons, ih hrest, (dotp_cons_right hb ht).symm]

/-- C8: cosineSimilarity is symmetric on vectors with the Map key
invariant, although the implementation iterates the smaller of the two
vectors. -/
theorem cosineSimilarity_symm (a b : TermVector)
    (ha : nodupKeys a) (hb : nodupKeys b) :
    cosineSimilarity a b = cosineSimilarity b a := by
  unfold cosineSimilarity
  by_cases h0 : a.length = 0 ∨ b.length = 0
  · rw [if_pos h0, if_pos (Or.symm h0)]
  · rw [if_neg h0, if_neg (fun hc => h0 (Or.symm hc))]
    simp only []
    rw [show (Nat.sqrt (vmag b) : ℚ) * (Nat.sqrt (vmag a) : ℚ) =
        (Nat.sqrt (vmag a) : ℚ) * (Nat.sqrt (vmag b) : ℚ) from mul_comm _ _]
    rcases Nat.lt_trichotomy a.length b.length with hlt | heq | hgt
    · rw [if_pos hlt, if_pos hlt,
        if_neg (show ¬ List.length b < List.length a by omega),
        if_neg (show ¬ List.length b < List.length a by omega)]
    · rw [if_neg (show ¬ List.length a < List.length b by omega),
        if_neg (show ¬ List.length a < List.length b by omega),
        if_neg (show ¬ List.length b < List.length a by omega),
        if_neg (show ¬ List.length b < List.length a by omega)]
      rw [dotp_comm hb ha]
    · rw [if_neg (show ¬ List.length a < List.length b by omega),
        if_neg (show ¬ List.length a < List.length b by omega),
        if_pos hgt, if_pos hgt]

/-- Witness for C8 at two concrete one-entry vectors. -/
theorem cosineSimilarity_symm_witness :
    nodupKeys [(chars ("a"), 1)] ∧ nodupKeys [(chars ("b"), 2)] ∧
    cosineSimilarity [(chars ("a"), 1)] [(chars ("b"), 2)] =
      cosineSimilarity [(chars ("b"), 2)] [(chars ("a"), 1)] :=
  ⟨by decide, by decide,
    cosineSimilarity_symm [(chars ("a"), 1)] [(chars ("b"), 2)]
      (by decide) (by decide)⟩

/-- Peer identifier accepted by the ObjectId conversion (an ObjectId
value, or a string the mongoose constructor accepts). -/
def validPeerId (p : ExistingSubmission) : Prop :=
  ∃ o, toObjectId p.idRef = .ok o

/-- Cosine similarity of the one-token vector for x with itself is 1. -/
lemma natSqrt_one : Nat.sqrt 1 = 1 := by
  rw [show (1 : ℕ) = 1 * 1 from rfl, Nat.sqrt_eq]

/-- Concrete cosine evaluation: identical one-token vectors score 1. -/
lemma cosine_xx :
    cosineSimilarity [(chars ("x"), 1)] [(chars ("x"), 1)] = 1 := by
  have hd : dotp [(chars ("x"), 1)] [(chars ("x"), 1)] = 1 := by
    rw [dotp_cons, lookD_cons_self]
    rfl
  unfold cosineSimilarity
  rw [if_neg (show ¬ (List.length [(chars ("x"), 1)] = 0 ∨
      List.length [(chars ("x"), 1)] = 0) by simp)]
  norm_num [vmag, natSqrt_one, hd]

/-- Collect loop succeeds whenever every peer identifier converts. -/
lemma collectMatches_isOk (v : TermVector) (ch : Option Str)
    (peers : List ExistingSubmission) (h : ∀ p ∈ peers, validPeerId p) :
    ∃ ms, collectMatches v ch peers = .ok ms := by
  induction peers with
  | nil => exact ⟨[], rfl⟩
  | cons peer rest ih =>
    obtain ⟨ms, hms⟩ := ih (fun p hp => h p (List.mem_cons_of_mem _ hp))
    by_cases hpos : 0 < peerScore v ch peer
    · obtain ⟨o, ho⟩ := h peer (List.mem_cons_self peer rest)
      exact ⟨_, collectMatches_cons_pos v ch peer rest _ o ms rfl hpos ho hms⟩
    · rw [collectMatches_cons_zero v ch peer rest _ rfl hpos]
      exact ⟨ms, hms⟩

/-- C6 (amended): buildSimilarityReport returns a report for every
input in which each peer identifier is an ObjectId value or a string the
ObjectId constructor accepts; with an invalid string identifier on a
positively scored peer the conversion throws instead (see the
counterexample). -/
theorem buildSimilarityReport_total_of_validIds (nt ch : Option Str)
    (peers : List ExistingSubmission) (h : ∀ p ∈ peers, validPeerId p) :
    ∃ r, buildSimilarityReport nt ch peers = .ok r := by
  by_cases t : strTruthy nt = true
  · obtain ⟨ms, hms⟩ := collectMatches_isOk (buildVector nt) ch peers h
    exact ⟨_, buildSimilarityReport_eval nt ch peers ms t hms⟩
  · have hb : strTruthy nt = false := by
      cases hsb : strTruthy nt
      · rfl
      · exact absurd hsb t
    refine ⟨⟨0, .none, [], ch, nt⟩, ?_⟩
    unfold buildSimilarityReport
    rw [if_pos (show (!strTruthy nt) = true by rw [hb]; rfl)]

/-- Witness for C6 at a concrete one-peer list with a valid ObjectId. -/
theorem buildSimilarityReport_total_witness :
    (∀ p ∈ [ExistingSubmission.mk (.oid oid1) none none], validPeerId p) ∧
    ∃ r, buildSimilarityReport none none
      [ExistingSubmission.mk (.oid oid1) none none] = .ok r := by
  have hv : ∀ p ∈ [ExistingSubmission.mk (.oid oid1) none none],
      validPeerId p := by
    intro p hp
    rw [List.mem_singleton] at hp
    subst hp
    exact ⟨oid1, rfl⟩
  exact ⟨hv, buildSimilarityReport_total_of_validIds none none _ hv⟩

/-- Counterexample for C6 as stated: a peer with the arbitrary string
identifier abc and identical one-word text makes the ObjectId conversion
throw, so no report is returned. -/
theorem buildSimilarityReport_total_counterexample :
    buildSimilarityReport (some (chars ("x"))) none
      [ExistingSubmission.mk (.str (chars ("abc"))) (some (chars ("x"))) none] =
      .error .invalidObjectId := by
  have hps : peerScore (buildVector (some (chars ("x")))) none
      (ExistingSubmission.mk (.str (chars ("abc"))) (some (chars ("x"))) none) =
      1 := by
    unfold peerScore
    rw [if_neg (show ¬ hashMatch none
        (ExistingSubmission.mk (.str (chars ("abc"))) (some (chars ("x")))
          none).contentHash = true by decide)]
    rw [if_pos (show strTruthy
        (ExistingSubmission.mk (.str (chars ("abc"))) (some (chars ("x")))
          none).normalizedText = true by decide)]
    rw [show buildVector (some (chars ("x"))) = [(chars ("x"), 1)] from by decide]
    exact cosine_xx
  have hcm : collectMatches (buildVector (some (chars ("x")))) none
      [ExistingSubmission.mk (.str (chars ("abc"))) (some (chars ("x"))) none] =
      .error .invalidObjectId := by
    simp only [collectMatches, hps]
    rw [if_pos (show (0 : ℚ) < 1 by norm_num)]
    rw [show toObjectId (ExistingSubmission.mk (.str (chars ("abc")))
        (some (chars ("x"))) none).idRef = .error .invalidObjectId from rfl]
  unfold buildSimilarityReport
  rw [if_neg (show ¬ (!strTruthy (some (chars ("x")))) = true by decide)]
  simp only []
  rw [hcm]

/-- Cosine similarity never exceeds 1 (final clamp of the source). -/
lemma cosineSimilarity_le_one (a b : TermVector) : cosineSimilarity a b ≤ 1 := by
  unfold cosineSimilarity
  by_cases h1 : a.length = 0 ∨ b.length = 0
  · rw [if_pos h1]
    norm_num
  · rw [if_neg h1]
    simp only []
    by_cases h2 : ((Nat.sqrt (vmag a) : ℚ) * (Nat.sqrt (vmag b) : ℚ)) = 0
    · rw [if_pos h2]
      norm_num
    · rw [if_neg h2]
      exact min_le_left _ _

/-- Per-peer scores never exceed 1. -/
lemma peerScore_le_one (v : TermVector) (ch : Option Str)
    (peer : ExistingSubmission) : peerScore v ch peer ≤ 1 := by
  unfold peerScore
  split_ifs with h1 h2
  · norm_num
  · exact cosineSimilarity_le_one _ _
  · norm_num

/-- Rounding to four decimals preserves non-negativity. -/
lemma round4_nonneg {q : ℚ} (h : 0 ≤ q) : 0 ≤ round4 q := by
  unfold round4
  have hr : (0 : ℤ) ≤ round (q * 10000) := by
    rw [round_eq]
    refine Int.floor_nonneg.mpr ?_
    have : (0 : ℚ) ≤ q * 10000 := by positivity
    linarith
  have : (0 : ℚ) ≤ (round (q * 10000) : ℤ) := by exact_mod_cast hr
  positivity

/-- Rounding to four decimals of a score at most 1 stays at most 1. -/
lemma round4_le_one {q : ℚ} (h : q ≤ 1) : round4 q ≤ 1 := by
  unfold round4
  have hr : round (q * 10000) ≤ 10000 := by
    rw [round_eq]
    have hlt : (⌊q * 10000 + 1/2⌋ : ℤ) < 10001 := by
      refine Int.floor_lt.mpr ?_
      push_cast
      linarith
    omega
  rw [div_le_one (by norm_num)]
  exact_mod_cast hr

/-- Every successful collect pass produces at most one entry per peer,
each entry being the four-decimal rounding of a strictly positive raw
score bounded by 1. -/
lemma collectMatches_bounds (v : TermVector) (ch : Option Str) :
    ∀ (peers : List ExistingSubmission) (ms : List MatchResult),
      collectMatches v ch peers = .ok ms →
      ms.length ≤ peers.length ∧
        ∀ m ∈ ms, ∃ raw : ℚ, 0 < raw ∧ raw ≤ 1 ∧ m.score = round4 raw := by
  intro peers
  induction peers with
  | nil =>
    intro ms h
    injection h with h2
    subst h2
    exact ⟨by simp, by simp⟩
  | cons peer rest ih =>
    intro ms h
    by_cases hpos : 0 < peerScore v ch peer
    · simp only [collectMatches] at h
      rw [if_pos hpos] at h
      cases ho : toObjectId peer.idRef with
      | error e =>
        rw [ho] at h
        exact Except.noConfusion h
      | ok oid =>
        rw [ho] at h
        cases hrest : collectMatches v ch rest with
        | error e =>
          rw [hrest] at h
          exact Except.noConfusion h
        | ok ms2 =>
          rw [hrest] at h
          injection h with h2
          subst h2
          obtain ⟨hlen, hall⟩ := ih ms2 hrest
          refine ⟨by simpa using Nat.succ_le_succ hlen, ?_⟩
          intro m hm
          rcases List.mem_cons.mp hm with rfl | hmem
          · exact ⟨peerScore v ch peer, hpos, peerScore_le_one v ch peer, rfl⟩
          · exact hall m hmem
    · rw [collectMatches_cons_zero v ch peer rest _ rfl hpos] at h
      obtain ⟨hlen, hall⟩ := ih ms h
      exact ⟨le_trans hlen (by simp), hall⟩

/-- C5 (amended): in every returned report each match entry carries a
score in the closed interval from 0 to 1 that is the four-decimal
rounding of a strictly positive raw similarity (the stored score itself
can round down to 0), and there is at most one entry per element of the
peers list. -/
theorem matchResult_entries_spec (nt ch : Option Str)
    (peers : List ExistingSubmission) (r : SimilarityReport)
    (h : buildSimilarityReport nt ch peers = .ok r) :
    (∀ m ∈ r.matchList, 0 ≤ m.score ∧ m.score ≤ 1 ∧
      ∃ raw : ℚ, 0 < raw ∧ m.score = round4 raw) ∧
    r.matchList.length ≤ peers.length := by
  unfold buildSimilarityReport at h
  split at h
  · injection h with h2
    subst h2
    exact ⟨by simp, by simp⟩
  · simp only at h
    split at h
    · exact Except.noConfusion h
    · injection h with h2
      subst h2
      rename_i ms hms
      have hperm := List.perm_insertionSort matchLe ms
      obtain ⟨hlen, hall⟩ := collectMatches_bounds (buildVector nt) ch peers ms hms
      constructor
      · intro m hm
        have hm2 : m ∈ ms := hperm.mem_iff.mp hm
        obtain ⟨raw, hraw0, hraw1, hmr⟩ := hall m hm2
        refine ⟨?_, ?_, raw, hraw0, hmr⟩
        · rw [hmr]
          exact round4_nonneg (le_of_lt hraw0)
        · rw [hmr]
          exact round4_le_one hraw1
      · calc (List.insertionSort matchLe ms).length = ms.length :=
              hperm.length_eq
          _ ≤ peers.length := hlen

/-- Vector of the normalized text a b c d. -/
def vABCD : TermVector :=
  [(chars ("a"), 1), (chars ("b"), 1), (chars ("c"), 1), (chars ("d"), 1)]

/-- Vector of the normalized text a b x y. -/
def vABXY : TermVector :=
  [(chars ("a"), 1), (chars ("b"), 1), (chars ("x"), 1), (chars ("y"), 1)]

/-- Square root of four. -/
lemma natSqrt_four : Nat.sqrt 4 = 2 := by
  rw [show (4 : ℕ) = 2 * 2 by norm_num, Nat.sqrt_eq]

/-- One half is a fixed point of four-decimal rounding. -/
lemma round4_half : round4 ((1 : ℚ)/2) = 1/2 := by
  unfold round4
  have h : round ((1 : ℚ)/2 * 10000) = 5000 := by
    rw [show (1 : ℚ)/2 * 10000 = 5000 by norm_num, round_eq]
    norm_num [Int.floor_eq_iff]
  rw [h]
  norm_num

/-- Concrete cosine evaluation of the scenario-3 pair: shared tokens a
and b, all magnitudes 2, similarity one half. -/
lemma cosine_abcd :
    cosineSimilarity (buildVector (some (chars ("a b c d"))))
      (buildVector (some (chars ("a b x y")))) = 1/2 := by
  rw [show buildVector (some (chars ("a b c d"))) = vABCD from by decide]
  rw [show buildVector (some (chars ("a b x y"))) = vABXY from by decide]
  unfold cosineSimilarity
  rw [if_neg (show ¬ (List.length vABCD = 0 ∨ List.length vABXY = 0) by decide)]
  simp only []
  rw [show vmag vABCD = 4 from by decide, show vmag vABXY = 4 from by decide,
    natSqrt_four]
  rw [if_neg (show ¬ ((2 : ℕ) : ℚ) * ((2 : ℕ) : ℚ) = 0 by norm_num)]
  rw [if_neg (show ¬ List.length vABCD < List.length vABXY by decide)]
  rw [if_neg (show ¬ List.length vABCD < List.length vABXY by decide)]
  rw [show dotp vABXY vABCD = 2 from by decide]
  norm_num

/-- Scenario-3 peer: normalized text a b x y, no stored hash. -/
def scenario3Peer : ExistingSubmission :=
  { idRef := .oid oid1, normalizedText := some (chars ("a b x y")),
    contentHash := none }

/-- Scenario-3 report: one match of score one half, category low. -/
def scenario3Report : SimilarityReport :=
  { score := 1/2, category := .low,
    matchList := [{ submissionId := oid1, score := 1/2 }],
    contentHash := none, normalizedText := some (chars ("a b c d")) }

/-- Witness for C5 on the concrete scenario-3 report. -/
theorem matchResult_entries_witness :
    buildSimilarityReport (some (chars ("a b c d"))) none [scenario3Peer] =
      .ok scenario3Report ∧
    ((∀ m ∈ scenario3Report.matchList, 0 ≤ m.score ∧ m.score ≤ 1 ∧
        ∃ raw : ℚ, 0 < raw ∧ m.score = round4 raw) ∧
      scenario3Report.matchList.length ≤ [scenario3Peer].length) := by
  have hps : peerScore (buildVector (some (chars ("a b c d")))) none
      scenario3Peer = 1/2 := by
    unfold peerScore
    rw [if_neg (show ¬ hashMatch none scenario3Peer.contentHash = true
      by decide)]
    rw [if_pos (show strTruthy scenario3Peer.normalizedText = true by decide)]
    exact cosine_abcd
  have hcm : collectMatches (buildVector (some (chars ("a b c d")))) none
      [scenario3Peer] = .ok [{ submissionId := oid1, score := round4 (1/2) }] :=
    collectMatches_cons_pos _ _ _ _ ((1 : ℚ)/2) oid1 [] hps (by norm_num) rfl
      (collectMatches_nil _ _)
  rw [round4_half] at hcm
  have hEq : buildSimilarityReport (some (chars ("a b c d"))) none
      [scenario3Peer] = .ok scenario3Report := by
    rw [buildSimilarityReport_eval _ _ _ _ (by decide) hcm]
    rw [show (((List.insertionSort matchLe
        [{ submissionId := oid1, score := (1 : ℚ)/2 }]).head?).map
          MatchResult.score).getD 0 = (1 : ℚ)/2 from rfl]
    rw [bucketScore_eq_low (by norm_num) (by norm_num) (by norm_num)]
    rfl
  exact ⟨hEq, matchResult_entries_spec _ _ _ _ hEq⟩

/-- One-character token x of the tiny-score construction. -/
def tokX : Str := ['x']

/-- One-character token y of the tiny-score construction. -/
def tokY : Str := ['y']

/-- One-character token z of the tiny-score construction. -/
def tokZ : Str := ['z']

/-- Join tokens with single spaces (input construction only). -/
def joinTokens : List Str → Str
  | [] => []
  | [t] => t
  | t :: ts => t ++ ' ' :: joinTokens ts

/-- Tokens of the large peer document: one x, twenty thousand y, two
hundred z; its squared magnitude is 1 + 20000^2 + 200^2 = 20001^2. -/
def bigTokens : List Str :=
  tokX :: (List.replicate 20000 tokY ++ List.replicate 200 tokZ)

/-- The large peer text. -/
def bigText : Str := joinTokens bigTokens

/-- The large peer submission. -/
def bigPeer : ExistingSubmission :=
  { idRef := .oid oid1, normalizedText := some bigText, contentHash := none }

/-- Term vector of the large peer text. -/
def bigVector : TermVector := [(tokX, 1), (tokY, 20000), (tokZ, 200)]

/-- Splitting a separator-free string yields the single field. -/
lemma splitChar_no_sep (sep : Char) (t : Str) (hns : sep ∉ t) :
    splitChar sep t = [t] := by
  induction t with
  | nil => rfl
  | cons c cs ih =>
    have hc : ¬ c = sep := by
      intro h
      subst h
      exact hns (List.mem_cons_self c cs)
    simp only [splitChar, if_neg hc]
    rw [ih (fun hm => hns (List.mem_cons_of_mem _ hm))]

/-- Splitting past a separator-free prefix peels off one field. -/
lemma splitChar_append (sep : Char) (t : Str) (hns : sep ∉ t) (r : Str) :
    splitChar sep (t ++ sep :: r) = t :: splitChar sep r := by
  induction t with
  | nil => simp [splitChar]
  | cons c cs ih =>
    have hc : ¬ c = sep := by
      intro h
      subst h
      exact hns (List.mem_cons_self c cs)
    simp only [List.cons_append, splitChar, if_neg hc]
    simp only [List.append_eq]
    rw [ih (fun hm => hns (List.mem_cons_of_mem _ hm))]

/-- Unfolding of joinTokens on two or more tokens. -/
lemma joinTokens_cons_cons (t u : Str) (us : List Str) :
    joinTokens (t :: u :: us) = t ++ ' ' :: joinTokens (u :: us) := rfl

/-- Splitting on spaces inverts joining space-free tokens. -/
lemma splitChar_joinTokens :
    ∀ (ts : List Str), ts ≠ [] → (∀ t ∈ ts, ' ' ∉ t) →
      splitChar ' ' (joinTokens ts) = ts := by
  intro ts
  induction ts with
  | nil => intro h; contradiction
  | cons t ts2 ih =>
    intro _ hall
    cases ts2 with
    | nil =>
      show splitChar ' ' (joinTokens [t]) = [t]
      rw [show joinTokens [t] = t from rfl]
      exact splitChar_no_sep ' ' t (hall t (List.mem_cons_self t []))
    | cons u us =>
      rw [joinTokens_cons_cons,
        splitChar_append ' ' t (hall t (List.mem_cons_self t _)),
        ih (by simp) (fun x hx => hall x (List.mem_cons_of_mem _ hx))]

/-- One counting step of the buildVector fold on a non-empty token. -/
lemma foldl_step_cons (v : TermVector) (t : Str) (ht : t.isEmpty = false)
    (ts : List Str) :
    (t :: ts).foldl
      (fun vector token => if token.isEmpty then vector else bump vector token) v =
    ts.foldl
      (fun vector token => if token.isEmpty then vector else bump vector token)
      (bump v t) := by
  rw [List.foldl_cons]
  simp [ht]

/-- Folding n further copies of y onto a vector already holding y. -/
lemma foldl_bump_y : ∀ (n w : ℕ),
    (List.replicate n tokY).foldl
      (fun vector token => if token.isEmpty then vector else bump vector token)
      [(tokX, 1), (tokY, w)] = [(tokX, 1), (tokY, w + n)] := by
  intro n
  induction n with
  | zero => intro w; simp
  | succ k ih =>
    intro w
    rw [List.replicate_succ, foldl_step_cons _ tokY rfl]
    have hb : bump [(tokX, 1), (tokY, w)] tokY = [(tokX, 1), (tokY, w + 1)] := by
      simp [bump, show ¬ tokX = tokY from by decide]
    rw [hb, ih (w + 1), show w + 1 + k = w + (k + 1) from by omega]

/-- Folding n further copies of z onto a vector already holding z. -/
lemma foldl_bump_z : ∀ (n w : ℕ),
    (List.replicate n tokZ).foldl
      (fun vector token => if token.isEmpty then vector else bump vector token)
      [(tokX, 1), (tokY, 20000), (tokZ, w)] =
    [(tokX, 1), (tokY, 20000), (tokZ, w + n)] := by
  intro n
  induction n with
  | zero => intro w; simp
  | succ k ih =>
    intro w
    rw [List.replicate_succ, foldl_step_cons _ tokZ rfl]
    have hb : bump [(tokX, 1), (tokY, 20000), (tokZ, w)] tokZ =
        [(tokX, 1), (tokY, 20000), (tokZ, w + 1)] := by
      simp [bump, show ¬ tokX = tokZ from by decide,
        show ¬ tokY = tokZ from by decide]
    rw [hb, ih (w + 1), show w + 1 + k = w + (k + 1) from by omega]

/-- Exposed head of the big token list. -/
lemma bigTokens_far : bigTokens =
    tokX :: tokY :: (List.replicate 19999 tokY ++ List.replicate 200 tokZ) := by
  unfold bigTokens
  rw [show (20000 : ℕ) = 19999 + 1 from by norm_num, List.replicate_succ]
  rfl

/-- Exposed head characters of the big text. -/
lemma bigText_cons : bigText = 'x' :: ' ' ::
    joinTokens (tokY :: (List.replicate 19999 tokY ++ List.replicate 200 tokZ)) := by
  unfold bigText
  rw [bigTokens_far, joinTokens_cons_cons]
  rfl

/-- No token of the big document contains a space. -/
lemma bigTokens_space_free : ∀ t ∈ bigTokens, ' ' ∉ t := by
  intro t ht
  unfold bigTokens at ht
  rcases List.mem_cons.mp ht with rfl | hm
  · decide
  · rcases List.mem_append.mp hm with hy | hz
    · rw [List.eq_of_mem_replicate hy]
      decide
    · rw [List.eq_of_mem_replicate hz]
      decide

/-- Term vector of the big text. -/
lemma bigVector_eq : buildVector (some bigText) = bigVector := by
  simp only [buildVector]
  rw [if_neg (show ¬ bigText.isEmpty = true by
    rw [bigText_cons]
    simp only [List.isEmpty_cons]
    exact Bool.false_ne_true)]
  rw [show bigText = joinTokens bigTokens from rfl]
  rw [splitChar_joinTokens bigTokens
    (by rw [bigTokens_far]; exact List.cons_ne_nil _ _) bigTokens_space_free]
  rw [bigTokens_far]
  rw [foldl_step_cons [] tokX rfl, foldl_step_cons _ tokY rfl]
  rw [show bump (bump [] tokX) tokY = [(tokX, 1), (tokY, 1)] from by decide]
  rw [List.foldl_append]
  rw [foldl_bump_y 19999 1, show (1 : ℕ) + 19999 = 20000 from by norm_num]
  rw [show (200 : ℕ) = 199 + 1 from by norm_num, List.replicate_succ]
  rw [foldl_step_cons _ tokZ rfl]
  rw [show bump [(tokX, 1), (tokY, 20000)] tokZ =
    [(tokX, 1), (tokY, 20000), (tokZ, 1)] from by decide]
  rw [foldl_bump_z 199 1, show (1 : ℕ) + 199 = 200 from by norm_num]
  rfl

/-- Square root of the big squared magnitude. -/
lemma natSqrt_mag : Nat.sqrt 400040001 = 20001 := by
  rw [show (400040001 : ℕ) = 20001 * 20001 by norm_num, Nat.sqrt_eq]

/-- Cosine of the one-token submission against the big peer: a shared
token of weight one over magnitudes 1 and 20001. -/
lemma cosine_big : cosineSimilarity [(tokX, 1)] bigVector = 1/20001 := by
  unfold cosineSimilarity
  rw [if_neg (show ¬ (List.length [(tokX, 1)] = 0 ∨ List.length bigVector = 0)
    by decide)]
  simp only []
  rw [show vmag [(tokX, 1)] = 1 from by decide]
  rw [show vmag bigVector = 400040001 from by decide]
  rw [if_neg (show ¬ ((Nat.sqrt 1 : ℚ) * (Nat.sqrt 400040001 : ℚ) = 0)
    by rw [natSqrt_one, natSqrt_mag]; norm_num)]
  rw [if_pos (show List.length [(tokX, 1)] < List.length bigVector by decide)]
  rw [if_pos (show List.length [(tokX, 1)] < List.length bigVector by decide)]
  rw [show dotp [(tokX, 1)] bigVector = 1 from by decide]
  rw [natSqrt_one, natSqrt_mag]
  norm_num

/-- Rounding 1/20001 (about 0.00005) to four decimals gives zero. -/
lemma round4_tiny : round4 (1/20001) = 0 := by
  unfold round4
  have h : round ((1 : ℚ)/20001 * 10000) = 0 := by
    rw [show (1 : ℚ)/20001 * 10000 = 10000/20001 by ring, round_eq]
    norm_num [Int.floor_eq_iff]
  rw [h]
  norm_num

/-- Counterexample for C5 as stated: against the 20201-token peer the
raw cosine similarity is 1/20001, which is strictly positive (so an
entry is recorded) but rounds to a stored score of 0; the returned
report contains a match entry whose score is not strictly greater
than 0. -/
theorem matchResult_positive_counterexample :
    (buildSimilarityReport (some tokX) none [bigPeer]).map
      (fun r => r.matchList.map MatchResult.score) = .ok [0] := by
  have hbt : strTruthy (some bigText) = true := by
    rw [bigText_cons]
    simp only [strTruthy, List.isEmpty_cons, Bool.not_false]
  have hps : peerScore (buildVector (some tokX)) none bigPeer = 1/20001 := by
    unfold peerScore
    rw [if_neg (show ¬ hashMatch none bigPeer.contentHash = true by decide)]
    rw [if_pos (show strTruthy bigPeer.normalizedText = true from hbt)]
    rw [show buildVector (some tokX) = [(tokX, 1)] from by decide]
    rw [show bigPeer.normalizedText = some bigText from rfl, bigVector_eq]
    exact cosine_big
  have hcm : collectMatches (buildVector (some tokX)) none [bigPeer] =
      .ok [{ submissionId := oid1, score := round4 (1/20001) }] :=
    collectMatches_cons_pos _ _ _ _ ((1 : ℚ)/20001) oid1 [] hps (by norm_num)
      rfl (collectMatches_nil _ _)
  rw [round4_tiny] at hcm
  rw [buildSimilarityReport_eval (some tokX) none [bigPeer]
    [{ submissionId := oid1, score := 0 }] (by decide) hcm]
  rfl

/-- Alphanumeric characters are not whitespace. -/
lemma alnum_not_space {c : Char} (h : isAlnumLower c = true) :
    isSpaceChar c = false := by
  cases hsc : isSpaceChar c
  · rfl
  · exfalso
    unfold isSpaceChar at hsc
    simp only [Bool.or_eq_true, decide_eq_true_eq] at hsc
    rcases hsc with ((h1 | h1) | h1) | h1 <;>
      (subst h1; exact absurd h (by decide))

/-- Lowercase letters and digits are fixed by toLower. -/
lemma toLower_fix_alnum {c : Char} (h : isAlnumLower c = true) :
    Char.toLower c = c := by
  unfold isAlnumLower at h
  simp only [Bool.or_eq_true, Bool.and_eq_true, decide_eq_true_eq] at h
  unfold Char.toLower
  rcases h with ⟨h1, h2⟩ | ⟨h1, h2⟩
  · have h1a : 97 ≤ c.toNat := by rw [Char.le_def] at h1; exact h1
    rw [if_neg (by omega)]
  · have h2a : c.toNat ≤ 57 := by rw [Char.le_def] at h2; exact h2
    rw [if_neg (by omega)]

/-- Membership description of the run-collapse output: every character
either is the replacement or is a copied non-class character. -/
lemma mem_collapseRuns {p : Char → Bool} {r : Char} :
    ∀ {l : Str} {c : Char}, c ∈ collapseRuns p r l →
      c = r ∨ (p c = false ∧ c ∈ l) := by
  intro l
  induction l with
  | nil => intro c hc; cases hc
  | cons d rest ih =>
    cases rest with
    | nil =>
      intro c hc
      unfold collapseRuns at hc
      split_ifs at hc with h1
      · exact Or.inl (List.mem_singleton.mp hc)
      · have hcd : c = d := List.mem_singleton.mp hc
        subst hcd
        refine Or.inr ⟨?_, List.mem_singleton_self c⟩
        cases hb : p c
        · rfl
        · exact absurd hb h1
    | cons e rest2 =>
      intro c hc
      unfold collapseRuns at hc
      split_ifs at hc with h1 h2
      · rcases ih hc with h | ⟨hp, hm⟩
        · exact Or.inl h
        · exact Or.inr ⟨hp, List.mem_cons_of_mem _ hm⟩
      · rcases List.mem_cons.mp hc with rfl | hc2
        · exact Or.inl rfl
        · rcases ih hc2 with h | ⟨hp, hm⟩
          · exact Or.inl h
          · exact Or.inr ⟨hp, List.mem_cons_of_mem _ hm⟩
      · rcases List.mem_cons.mp hc with rfl | hc2
        · refine Or.inr ⟨?_, List.mem_cons_self _ _⟩
          cases hb : p c
          · rfl
          · exact absurd hb h1
        · rcases ih hc2 with h | ⟨hp, hm⟩
          · exact Or.inl h
          · exact Or.inr ⟨hp, List.mem_cons_of_mem _ hm⟩

/-- Head of the run-collapse of a list starting with a non-class
character. -/
lemma head_collapseRuns_nonp {p : Char → Bool} {r : Char} {d : Char}
    {rest : Str} (hd : ¬ p d = true) :
    (collapseRuns p r (d :: rest)).head? = some d := by
  cases rest with
  | nil =>
    unfold collapseRuns
    rw [if_neg hd]
    rfl
  | cons e rest2 =>
    unfold collapseRuns
    rw [if_neg hd]
    rfl

/-- The run-collapse output never has two adjacent class characters. -/
lemma chain'_collapseRuns (p : Char → Bool) (r : Char) :
    ∀ (l : Str), List.Chain'
      (fun a b => ¬ (p a = true ∧ p b = true)) (collapseRuns p r l) := by
  intro l
  induction l with
  | nil => simp [collapseRuns]
  | cons d rest ih =>
    cases rest with
    | nil =>
      unfold collapseRuns
      split_ifs <;> simp
    | cons e rest2 =>
      unfold collapseRuns
      split_ifs with h1 h2
      · exact ih
      · rw [List.chain'_cons']
        refine ⟨?_, ih⟩
        intro y hy
        rw [head_collapseRuns_nonp h2] at hy
        have hye : y = e := by
          injection hy with h
          exact h.symm
        subst hye
        exact fun hcon => h2 hcon.2
      · rw [List.chain'_cons']
        refine ⟨?_, ih⟩
        intro y _
        exact fun hcon => h1 hcon.1

/-- The run-collapse is the identity on lists whose class characters
are already the replacement and never adjacent. -/
lemma collapseRuns_eq_self {p : Char → Bool} {r : Char} :
    ∀ {l : Str}, (∀ c ∈ l, p c = true → c = r) →
      List.Chain' (fun a b => ¬ (p a = true ∧ p b = true)) l →
      collapseRuns p r l = l := by
  intro l
  induction l with
  | nil => intros; rfl
  | cons d rest ih =>
    cases rest with
    | nil =>
      intro hall _
      unfold collapseRuns
      by_cases hd : p d = true
      · rw [if_pos hd, hall d (List.mem_singleton_self d) hd]
      · rw [if_neg hd]
    | cons e rest2 =>
      intro hall hch
      rw [List.chain'_cons'] at hch
      obtain ⟨hde, hch2⟩ := hch
      have hRde : ¬ (p d = true ∧ p e = true) := hde e rfl
      unfold collapseRuns
      by_cases hd : p d = true
      · have he : ¬ p e = true := fun hpe => hRde ⟨hd, hpe⟩
        rw [if_pos hd, if_neg he,
          ih (fun c hc hp => hall c (List.mem_cons_of_mem _ hc) hp) hch2,
          hall d (List.mem_cons_self _ _) hd]
      · rw [if_neg hd,
          ih (fun c hc hp => hall c (List.mem_cons_of_mem _ hc) hp) hch2]

/-- Head of a dropWhile output never satisfies the dropped class. -/
lemma head?_dropWhile_not {p : Char → Bool} :
    ∀ (l : Str) {c : Char}, (l.dropWhile p).head? = some c → p c = false := by
  intro l
  induction l with
  | nil => intro c hc; cases hc
  | cons d rest ih =>
    intro c hc
    rw [List.dropWhile_cons] at hc
    split_ifs at hc with h1
    · exact ih hc
    · injection hc with h
      subst h
      cases hb : p d
      · rfl
      · exact absurd hb h1

/-- A non-empty suffix shares the last element. -/
lemma getLast?_of_suffix {l1 l : Str} (h : l1 <:+ l) (hne : l1 ≠ []) :
    l1.getLast? = l.getLast? := by
  obtain ⟨t, rfl⟩ := h
  rw [List.getLast?_append]
  cases hg : l1.getLast? with
  | none =>
    exfalso
    exact hne (List.getLast?_eq_none_iff.mp hg)
  | some y => rfl

/-- Characters of the trimmed string come from the original. -/
lemma mem_trimStr {l : Str} {c : Char} (hc : c ∈ trimStr l) : c ∈ l := by
  unfold trimStr at hc
  rw [List.mem_reverse] at hc
  have hc2 := (List.dropWhile_suffix isSpaceChar).mem hc
  rw [List.mem_reverse] at hc2
  exact (List.dropWhile_suffix isSpaceChar).mem hc2

/-- Trimming preserves the adjacency invariant (for a symmetric
relation). -/
lemma chain'_trimStr {R : Char → Char → Prop}
    (hsymm : ∀ a b, R a b → R b a) {l : Str}
    (h : List.Chain' R l) : List.Chain' R (trimStr l) := by
  unfold trimStr
  have h1 : List.Chain' R (l.dropWhile isSpaceChar) :=
    h.suffix (List.dropWhile_suffix isSpaceChar)
  have h2 : List.Chain' R ((l.dropWhile isSpaceChar).reverse) :=
    List.chain'_reverse.mpr (h1.imp fun a b hab => hsymm a b hab)
  have h3 : List.Chain' R
      (((l.dropWhile isSpaceChar).reverse).dropWhile isSpaceChar) :=
    h2.suffix (List.dropWhile_suffix isSpaceChar)
  exact List.chain'_reverse.mpr (h3.imp fun a b hab => hsymm a b hab)

/-- The first character of a trimmed string is not whitespace. -/
lemma head_trimStr_not_space {l : Str} {c : Char}
    (h : (trimStr l).head? = some c) : isSpaceChar c = false := by
  unfold trimStr at h
  rw [← List.getLast?_eq_head?_reverse] at h
  have hne : ((l.dropWhile isSpaceChar).reverse.dropWhile isSpaceChar) ≠ [] := by
    intro he
    rw [he] at h
    cases h
  rw [getLast?_of_suffix (List.dropWhile_suffix isSpaceChar) hne,
    List.getLast?_reverse] at h
  exact head?_dropWhile_not l h

/-- The last character of a trimmed string is not whitespace. -/
lemma getLast_trimStr_not_space {l : Str} {c : Char}
    (h : (trimStr l).getLast? = some c) : isSpaceChar c = false := by
  unfold trimStr at h
  rw [List.getLast?_reverse] at h
  exact head?_dropWhile_not _ h

/-- Pointwise-fixed maps are the identity. -/
lemma map_fix {f : Char → Char} :
    ∀ {l : Str}, (∀ c ∈ l, f c = c) → l.map f = l := by
  intro l
  induction l with
  | nil => intro _; rfl
  | cons d rest ih =>
    intro h
    rw [List.map_cons, h d (List.mem_cons_self _ _),
      ih (fun c hc => h c (List.mem_cons_of_mem _ hc))]

/-- Lists without class characters trivially satisfy the adjacency
invariant. -/
lemma chain'_of_all_false {p : Char → Bool} :
    ∀ {l : Str}, (∀ c ∈ l, p c = false) →
      List.Chain' (fun a b => ¬ (p a = true ∧ p b = true)) l := by
  intro l
  induction l with
  | nil => intro _; simp
  | cons d rest ih =>
    intro h
    rw [List.chain'_cons']
    refine ⟨?_, ih (fun c hc => h c (List.mem_cons_of_mem _ hc))⟩
    intro y _
    intro hcon
    rw [h d (List.mem_cons_self _ _)] at hcon
    exact Bool.false_ne_true hcon.1

/-- A dropWhile whose head is outside the class is the identity. -/
lemma dropWhile_eq_self_of_head {p : Char → Bool} {l : Str}
    (h : ∀ c, l.head? = some c → p c = false) : l.dropWhile p = l := by
  cases l with
  | nil => rfl
  | cons d rest =>
    rw [List.dropWhile_cons, if_neg (by rw [h d rfl]; exact Bool.false_ne_true)]

/-- Trimming is the identity when both ends are not whitespace. -/
lemma trimStr_eq_self {l : Str}
    (h1 : ∀ c, l.head? = some c → isSpaceChar c = false)
    (h2 : ∀ c, l.getLast? = some c → isSpaceChar c = false) :
    trimStr l = l := by
  unfold trimStr
  rw [dropWhile_eq_self_of_head h1]
  rw [dropWhile_eq_self_of_head
    (fun c hc => h2 c (by rw [List.getLast?_eq_head?_reverse]; exact hc))]
  rw [List.reverse_reverse]

/-- Characters surviving the normalization pipeline are spaces or
lowercase alphanumerics. -/
lemma pipeline_chars {s : Str} {c : Char}
    (hc : c ∈ trimStr (collapseRuns isSpaceChar ' '
      (collapseRuns isStripChar ' ' (s.map Char.toLower)))) :
    c = ' ' ∨ isAlnumLower c = true := by
  have hc2 := mem_trimStr hc
  rcases mem_collapseRuns hc2 with rfl | ⟨hsp, hc3⟩
  · exact Or.inl rfl
  · rcases mem_collapseRuns hc3 with rfl | ⟨hstrip, _⟩
    · exact absurd hsp (by decide)
    · right
      unfold isStripChar at hstrip
      simp only [Bool.not_eq_false', Bool.or_eq_true] at hstrip
      rcases hstrip with ha | hs
      · exact ha
      · rw [hs] at hsp
        exact absurd hsp (by decide)

/-- C7: normalizeText is idempotent on non-absent results, maps the
absent input to absent, maps pure whitespace to absent, lowercases and
strips punctuation as in the concrete example, and never returns the
empty string. -/
theorem normalizeText_idempotent :
    (∀ (x : Option Str) (n : Str), normalizeText x = some n →
      normalizeText (some n) = some n ∧ n ≠ []) ∧
    normalizeText none = none ∧
    normalizeText (some (chars ("   "))) = none ∧
    normalizeText (some (chars ("Hi, World!!"))) = some (chars ("hi world")) := by
  have hmain : ∀ (x : Option Str) (n : Str), normalizeText x = some n →
      normalizeText (some n) = some n ∧ n ≠ [] := by
    intro x n h
    cases x with
    | none => exact absurd h (by simp [normalizeText])
    | some s =>
      simp only [normalizeText] at h
      by_cases hse : s.isEmpty = true
      · rw [if_pos hse] at h
        cases h
      · rw [if_neg hse] at h
        by_cases hlen : 0 < (trimStr (collapseRuns isSpaceChar ' '
            (collapseRuns isStripChar ' ' (s.map Char.toLower)))).length
        · rw [if_pos hlen] at h
          injection h with h2
          subst h2
          have hne : trimStr (collapseRuns isSpaceChar ' '
              (collapseRuns isStripChar ' ' (s.map Char.toLower))) ≠ [] := by
            intro he
            rw [he] at hlen
            exact absurd hlen (by simp)
          refine ⟨?_, hne⟩
          have hchars : ∀ c ∈ trimStr (collapseRuns isSpaceChar ' '
              (collapseRuns isStripChar ' ' (s.map Char.toLower))),
              c = ' ' ∨ isAlnumLower c = true := fun c hc => pipeline_chars hc
          have hchain : List.Chain' (fun a b =>
              ¬ (isSpaceChar a = true ∧ isSpaceChar b = true))
              (trimStr (collapseRuns isSpaceChar ' '
                (collapseRuns isStripChar ' ' (s.map Char.toLower)))) :=
            chain'_trimStr (fun a b hab hcon => hab ⟨hcon.2, hcon.1⟩)
              (chain'_collapseRuns isSpaceChar ' ' _)
          have hstrip_false : ∀ c ∈ trimStr (collapseRuns isSpaceChar ' '
              (collapseRuns isStripChar ' ' (s.map Char.toLower))),
              isStripChar c = false := by
            intro c hc
            rcases hchars c hc with rfl | ha
            · decide
            · unfold isStripChar
              rw [ha]
              rfl
          simp only [normalizeText]
          rw [if_neg (show ¬ (trimStr (collapseRuns isSpaceChar ' '
              (collapseRuns isStripChar ' ' (s.map Char.toLower)))).isEmpty =
                true by
            cases hm : trimStr (collapseRuns isSpaceChar ' '
                (collapseRuns isStripChar ' ' (s.map Char.toLower))) with
            | nil => exact absurd hm hne
            | cons d rest => simp)]
          rw [map_fix (fun c hc => by
            rcases hchars c hc with rfl | ha
            · decide
            · exact toLower_fix_alnum ha)]
          rw [collapseRuns_eq_self
            (fun c hc hp => absurd hp
              (by rw [hstrip_false c hc]; exact Bool.false_ne_true))
            (chain'_of_all_false hstrip_false)]
          rw [collapseRuns_eq_self
            (fun c hc hp => by
              rcases hchars c hc with rfl | ha
              · rfl
              · exact absurd hp
                  (by rw [alnum_not_space ha]; exact Bool.false_ne_true))
            hchain]
          rw [trimStr_eq_self
            (fun c hc => head_trimStr_not_space hc)
            (fun c hc => getLast_trimStr_not_space hc)]
          rw [if_pos hlen]
        · rw [if_neg hlen] at h
          cases h
  refine ⟨hmain, rfl, by decide, by decide⟩

/-- Witness for C7 at the concrete input Hi, World!!. -/
theorem normalizeText_idempotent_witness :
    normalizeText (some (chars ("Hi, World!!"))) = some (chars ("hi world")) ∧
    normalizeText (some (chars ("hi world"))) = some (chars ("hi world")) ∧
    chars ("hi world") ≠ [] :=
  ⟨by decide,
    (normalizeText_idempotent.1 (some (chars ("Hi, World!!")))
      (chars ("hi world")) (by decide)).1,
    (normalizeText_idempotent.1 (some (chars ("Hi, World!!")))
      (chars ("hi world")) (by decide)).2⟩
